import Mathlib

/-!
# Verification of the dataset acquisition and query server (`src/server.js`)

This file gives a shallow embedding of the data model and the operations of
the Node.js dataset server: the streaming query engine (`GET /api/data`),
the JSON→CSV normalizer (`toCSV`), the ZIP entry selector (`pickLargestCsv`),
and the acquisition orchestrator (`tryDownload` / `updateSelected`), in both
variants present in the source.  Machine-level I/O (filesystem, network) is
modelled by explicit state passing: the out-directory and the manifest are
association lists, and the network is an environment of pure functions.
Theorems named `C1_…` .. `C10_…` settle the frozen specification claims.
-/

namespace Ditc

/-! ## Query engine (`GET /api/data`)

The route streams the canonical CSV through a parser and processes one
parsed record at a time.  We embed the stream callback over a list of
already-parsed records; a record is a list of fields and a field is a list
of characters (so that substring containment is `List.IsInfix`). -/

/-- `row.join(' ')`: concatenate the fields of a record with single spaces. -/
def joinSpace (row : List (List Char)) : List Char :=
  (List.intersperse [' '] row).flatten

/-- `.toLowerCase()` on a character list (per-character lowering). -/
def lowerL (l : List Char) : List Char := l.map Char.toLower

/-- The record-matching test of the stream callback:
`if (q && !hay.includes(q)) return;` with `hay = row.join(' ').toLowerCase()`
and `q` already lowercased by the route.  A record is matched (counted and
possibly paged) exactly when `q` is empty or `q` occurs in `hay`. -/
def rowMatches (q : List Char) (row : List (List Char)) : Bool :=
  q.isEmpty || decide (q <:+: lowerL (joinSpace row))

/-- `const obj={}; headers.forEach((h,i)=>obj[h]=row[i]);` — the paged object
for one record: each header is bound to the field at its index (`none` when
the record is shorter than the header row, i.e. `row[i]` is `undefined`). -/
def rowToObj (headers row : List (List Char)) : List (List Char × Option (List Char)) :=
  headers.enum.map (fun p => (p.2, row.get? p.1))

/-- Accumulator of the stream callback: `let headers=null, rows=[], total=0`. -/
structure QState where
  headers : Option (List (List Char))
  rows : List (List (List Char × Option (List Char)))
  total : Nat
  deriving DecidableEq, Repr

/-- One `stream.on('data', row => …)` callback invocation of `GET /api/data`:
the first record becomes the header row; a later record is tested against the
lowered query over its space-joined fields; a match bumps `total` and is paged
when `rows.length < limit && total > offset`. -/
def qStep (limit offset : Nat) (q : List Char) (st : QState)
    (row : List (List Char)) : QState :=
  match st.headers with
  | none => { st with headers := some row }
  | some hs =>
    if ¬ rowMatches q row then st
    else
      let total := st.total + 1
      if st.rows.length < limit ∧ total > offset then
        { headers := some hs, rows := st.rows ++ [rowToObj hs row], total := total }
      else
        { st with total := total }

/-- The whole stream run of `GET /api/data` over the parsed records of the
canonical file, with the route's (post-clamp) `limit`, `offset` and the
lowercased query `q`. -/
def runQuery (limit offset : Nat) (q : List Char)
    (records : List (List (List Char))) : QState :=
  records.foldl (qStep limit offset q) ⟨none, [], 0⟩

/-- The page of matched records the claim describes: the matches whose 1-based
rank lies in `(offset, offset+limit]`, rendered as header-keyed objects. -/
def pageOf (hs : List (List Char)) (limit offset : Nat)
    (matched : List (List (List Char))) :
    List (List (List Char × Option (List Char))) :=
  ((matched.drop offset).take limit).map (rowToObj hs)

/-! ## JSON values and the JSON→CSV normalizer (`toCSV`)

JSON documents are modelled by an inductive value type (numbers as integers,
which covers every payload the claims exercise).  JavaScript-specific
behaviours that `toCSV` and the orchestrator rely on — truthiness, property
access on arbitrary values, `String(v)` stringification — are embedded
explicitly. -/

inductive JVal where
  | jnull : JVal
  | jbool (b : Bool) : JVal
  | jnum (n : Int) : JVal
  | jstr (s : String) : JVal
  | jarr (xs : List JVal) : JVal
  | jobj (fields : List (String × JVal)) : JVal

/-- JavaScript truthiness of a JSON value (`null`, `false`, `0`, `""` are
falsy; every array and object, including empty ones, is truthy). -/
def jsTruthy : JVal → Bool
  | .jnull => false
  | .jbool b => b
  | .jnum n => n != 0
  | .jstr s => !s.isEmpty
  | .jarr _ => true
  | .jobj _ => true

/-- `Object.keys(o || {})`: key list of an object in insertion order; `{}`
for falsy `o`; index keys for arrays and strings; empty for other
primitives.  (`JSON.parse` output never carries duplicate object keys.) -/
def jsKeys : JVal → List String
  | .jobj fields => fields.map Prod.fst
  | .jarr xs => (List.range xs.length).map (fun i => toString i)
  | .jstr s => (List.range s.length).map (fun i => toString i)
  | _ => []

/-- JavaScript property access `o[h]` (`none` = `undefined`): name lookup on
objects, numeric-index lookup on arrays and strings, `undefined` elsewhere. -/
def jsProp (o : JVal) (h : String) : Option JVal :=
  match o with
  | .jobj fields => fields.lookup h
  | .jarr xs => h.toNat?.bind (fun i => xs.get? i)
  | .jstr s => h.toNat?.bind (fun i => (s.data.get? i).map (fun c => .jstr ⟨[c]⟩))
  | _ => none

mutual
/-- JavaScript `String(v)` on a JSON value (arrays join their elements with
commas, rendering `null` elements as empty). -/
def jsString : JVal → String
  | .jnull => "null"
  | .jbool b => cond b "true" "false"
  | .jnum n => toString n
  | .jstr s => s
  | .jobj _ => "[object Object]"
  | .jarr xs => String.intercalate "," (jsStrings xs)

/-- `Array.prototype.join(',')` element rendering for `jsString`. -/
def jsStrings : List JVal → List String
  | [] => []
  | .jnull :: vs => "" :: jsStrings vs
  | v :: vs => jsString v :: jsStrings vs
end

/-- `s.replace(/"/g,'""')` on the character list of a field value. -/
def escQuotes : List Char → List Char
  | [] => []
  | c :: cs => if c = '"' then '"' :: '"' :: escQuotes cs else c :: escQuotes cs

/-- The `esc` helper of `toCSV`:
`v => { const s = (v==null ? '' : String(v)); return '"' + s.replace(/"/g,'""') + '"'; }`
applied to a possibly-`undefined` (`none`) cell value. -/
def esc (v : Option JVal) : String :=
  let s : String := match v with
    | none => ""
    | some .jnull => ""
    | some w => jsString w
  ⟨'"' :: escQuotes s.data ++ ['"']⟩

/-- `[...new Set(l)]`: iterate `l` inserting unseen elements, preserving
insertion order (first occurrence wins). -/
def setDedup (l : List String) : List String :=
  l.foldl (fun acc k => if k ∈ acc then acc else acc ++ [k]) []

/-- `toCSV(rows)` from the source: empty string for a non-array or empty
input; otherwise a header line over the de-duplicated union of all record
keys followed by one line per record, every field escaped by `esc`. -/
def toCSV (rows : List JVal) : String :=
  if rows.isEmpty then "" else
  let headers := setDedup (rows.flatMap jsKeys)
  let lines : List String :=
    (String.intercalate "," (headers.map (fun h => esc (some (.jstr h))))) ::
      rows.map (fun r => String.intercalate "," (headers.map (fun h => esc (jsProp r h))))
  String.intercalate "\n" lines

/-! Spec-side formulations for claim C6, written from the claim's words and
compared with the source-side `toCSV` above. -/

/-- Spec-side first-seen de-duplication: keep each key's first occurrence,
erasing its later duplicates. -/
def firstSeen : List String → List String
  | [] => []
  | k :: ks => k :: firstSeen (ks.filter (fun x => x ≠ k))
  termination_by l => l.length
  decreasing_by
    simp only [List.length_cons]
    exact Nat.lt_succ_of_le (List.length_filter_le _ ks)

/-- Spec-side cell text: the record's stringified value at the key, the
empty string when the record misses the key (or holds `null`). -/
def specCell (r : JVal) (h : String) : String :=
  match jsProp r h with
  | none => ""
  | some .jnull => ""
  | some v => jsString v

/-- Spec-side field quoting: the field double-quoted with internal double
quotes doubled (each `"` contributes two). -/
def specEsc (s : String) : String :=
  ⟨'"' :: (s.data.flatMap (fun c => if c = '"' then [c, c] else [c])) ++ ['"']⟩

/-- Spec-side normalized CSV: header = union of keys in first-seen order,
one line per record in header order, every field quoted by `specEsc`. -/
def toCSVspec (rows : List JVal) : String :=
  match rows with
  | [] => ""
  | _ =>
    let headers := firstSeen (rows.flatMap jsKeys)
    String.intercalate "\n"
      ((String.intercalate "," (headers.map specEsc)) ::
        rows.map (fun r => String.intercalate "," (headers.map (fun h => specEsc (specCell r h)))))

/-! ## ZIP entry selection (`pickLargestCsv`)

`pickLargestCsv(files, baseDir)` receives the extracted entry names and
stats each one; we embed the entries as name/size/content triples. -/

structure ZipEntry where
  name : String
  size : Nat
  content : String
  deriving DecidableEq, Repr

/-- `f.toLowerCase().endsWith('.csv')`. -/
def isCsvName (s : String) : Bool :=
  decide (".csv".data <:+ s.data.map Char.toLower)

/-- `pickLargestCsv`: filter to `.csv` entries; starting from
`best = csvs[0], size = 0`, scan all csv entries updating on strictly
greater size; `none` when no entry has a `.csv` name. -/
def pickLargestCsv (files : List ZipEntry) : Option ZipEntry :=
  let csvs := files.filter (fun f => isCsvName f.name)
  match csvs with
  | [] => none
  | c0 :: _ =>
    some (csvs.foldl
      (fun acc c => if acc.2 < c.size then (c, c.size) else acc) (c0, 0)).1

/-- Spec-side selection: the first csv entry (listing order) whose byte size
dominates every csv entry — i.e. the first entry attaining the maximal size. -/
def firstMaxCsv (files : List ZipEntry) : Option ZipEntry :=
  let csvs := files.filter (fun f => isCsvName f.name)
  csvs.find? (fun e => csvs.all (fun e2 => e2.size ≤ e.size))

/-! ## Acquisition orchestrator (`tryDownload`, `updateSelected`)

Network and clock are an environment of pure functions; the out-directory,
the in-memory manifest, the persisted manifest snapshots and the performed
probe/retrieve calls are explicit state.  `none` from `env.retrieve` models
`fetchBuffer` throwing (non-success HTTP status or timeout); `none` from
`env.head` models the `head` helper returning `null` (network failure or
timeout); `none` from `env.parseJson` models a `JSON.parse` exception.
`env.extract` is the deterministic extraction of a fetched ZIP body. -/

inductive SrcType where
  | csv | json | zip
  deriving DecidableEq, Repr

structure Source where
  type : SrcType
  url : String
  deriving DecidableEq, Repr

structure Dataset where
  key : String
  enabled : Bool
  sources : List Source
  deriving DecidableEq, Repr

/-- One manifest entry:
`{ etag, 'last-modified': lm, 'content-length': clen, savedAs, ts }`. -/
structure Fingerprint where
  etag : Option String
  lastModified : Option String
  contentLength : Option String
  savedAs : String
  ts : Nat
  deriving DecidableEq, Repr

/-- A non-null `HEAD` response: status plus the three cache headers
(`none` = header absent). -/
structure HeadResp where
  status : Nat
  etag : Option String
  lastModified : Option String
  contentLength : Option String
  deriving DecidableEq, Repr

structure Env where
  head : String → Option HeadResp
  retrieve : String → Option String
  extract : String → List ZipEntry
  parseJson : String → Option JVal
  now : Nat

/-- Mutable state threaded through the orchestrator.  `outFiles` is the
out-directory (`<name> ↦ bytes`), `manifest` the in-memory manifest,
`savedManifests` the persisted snapshots (most recent first), `headCalls`
and `retrieveCalls` the issued probes and full-body retrievals (most recent
first). -/
structure St where
  outFiles : List (String × String)
  manifest : List (String × Fingerprint)
  savedManifests : List (List (String × Fingerprint))
  headCalls : List String
  retrieveCalls : List String
  deriving DecidableEq, Repr

/-- The per-dataset outcome record `{ ok, note, source }` (`source` absent
on total failure). -/
structure DlResult where
  ok : Bool
  note : String
  source : Option String
  deriving DecidableEq, Repr

/-- JavaScript truthiness of an optional string (`undefined`/`null`/`""`
are falsy). -/
def truthy : Option String → Bool
  | none => false
  | some s => !s.isEmpty

/-- Assignment `m[k] = v` on an association list: update in place, or append
a new binding at the end (JS object key order). -/
def alSet {α : Type} : List (String × α) → String → α → List (String × α)
  | [], k, v => [(k, v)]
  | (k', v') :: rest, k, v =>
    if k' = k then (k, v) :: rest else (k', v') :: alSet rest k v

/-- The `changed` test of `tryDownload` (first variant): no stored
fingerprint field is set, or some header the probe returned differs from the
stored value. -/
def changedTest (etag lm clen : Option String)
    (last : Option Fingerprint) : Bool :=
  (!truthy (last.bind Fingerprint.etag) &&
   !truthy (last.bind Fingerprint.lastModified) &&
   !truthy (last.bind Fingerprint.contentLength)) ||
  (truthy etag && !(etag == last.bind Fingerprint.etag)) ||
  (truthy lm && !(lm == last.bind Fingerprint.lastModified)) ||
  (truthy clen && !(clen == last.bind Fingerprint.contentLength))

/-- `Array.isArray(v)` projection: the element list when `v` is an array. -/
def arrVal : Option JVal → Option (List JVal)
  | some (.jarr xs) => some xs
  | _ => none

/-- Record extraction of the JSON branch (first variant):
`Array.isArray(parsed) ? parsed : …` — else the first of
`parsed.content` / `parsed.data` / `parsed.results` that is an array
(guarded by `parsed &&` truthiness), else the one-record list `[parsed]`. -/
def extractData (parsed : JVal) : List JVal :=
  match parsed with
  | .jarr xs => xs
  | _ =>
    if jsTruthy parsed then
      match arrVal (jsProp parsed "content") with
      | some xs => xs
      | none =>
        match arrVal (jsProp parsed "data") with
        | some xs => xs
        | none =>
          match arrVal (jsProp parsed "results") with
          | some xs => xs
          | none => [parsed]
    else [parsed]

/-- The fetch-and-normalize stage of the changed branch: retrieve the body,
then per source type produce the canonical file write (`none` = an exception
was thrown: failed retrieval, no CSV inside the ZIP, or invalid JSON). -/
def fetchStage (env : Env) (ds : Dataset) (src : Source) (s : St) : Option St :=
  match src.type, env.retrieve src.url with
  | _, none => none
  | .zip, some body =>
    match pickLargestCsv (env.extract body) with
    | none => none
    | some e => some { s with outFiles := alSet s.outFiles (ds.key ++ ".csv") e.content }
  | .csv, some body =>
    some { s with outFiles := alSet s.outFiles (ds.key ++ ".csv") body }
  | .json, some body =>
    match env.parseJson body with
    | none => none
    | some parsed =>
      some { s with
             outFiles := alSet s.outFiles (ds.key ++ ".csv") (toCSV (extractData parsed)) }

/-- One source attempt of `tryDownload` (first variant): probe unless the
source is JSON, evaluate the changed test, then either fetch + normalize +
commit (write the fingerprint and persist the manifest), or reuse the
existing canonical file / recover a missing one.  `none` in the first
component means the attempt failed and the loop continues. -/
def attemptSource (env : Env) (ds : Dataset) (src : Source) (s0 : St) :
    Option DlResult × St :=
  let s := if src.type = .json then s0
           else { s0 with headCalls := src.url :: s0.headCalls }
  let h : Option HeadResp := if src.type = .json then none else env.head src.url
  let etag := h.bind HeadResp.etag
  let lm := h.bind HeadResp.lastModified
  let clen := h.bind HeadResp.contentLength
  let last := s.manifest.lookup src.url
  let statErr : Bool := match h with
    | none => false
    | some hr => decide (400 ≤ hr.status)
  if (src.type == SrcType.json) || h.isNone || statErr ||
      changedTest etag lm clen last then
    let s := { s with retrieveCalls := src.url :: s.retrieveCalls }
    match fetchStage env ds src s with
    | none => (none, s)
    | some s1 =>
      let m := alSet s1.manifest src.url
        ⟨etag, lm, clen, ds.key ++ ".csv", env.now⟩
      (some ⟨true, if src.type == SrcType.zip then "ZIP extracted" else "Downloaded",
             some src.url⟩,
       { s1 with manifest := m, savedManifests := m :: s1.savedManifests })
  else
    if (s.outFiles.lookup (ds.key ++ ".csv")).isSome then
      (some ⟨true, "Up-to-date", some src.url⟩, s)
    else if src.type == SrcType.csv then
      let s := { s with retrieveCalls := src.url :: s.retrieveCalls }
      match env.retrieve src.url with
      | none => (none, s)
      | some body =>
        (some ⟨true, "Downloaded (recovered)", some src.url⟩,
         { s with outFiles := alSet s.outFiles (ds.key ++ ".csv") body })
    else
      (none, s)

/-- The source loop of `tryDownload` (first variant). -/
def tryDownload (env : Env) (ds : Dataset) : List Source → St → DlResult × St
  | [], s => (⟨false, "All sources failed", none⟩, s)
  | src :: rest, s =>
    match attemptSource env ds src s with
    | (some r, s') => (r, s')
    | (none, s') => tryDownload env ds rest s'

/-- `updateSelected`'s per-dataset loop: run `tryDownload` over each
dataset's sources sequentially, threading the shared state, collecting one
keyed outcome per dataset. -/
def runBatch (env : Env) : List Dataset → St → List (String × DlResult) × St
  | [], s => ([], s)
  | ds :: rest, s =>
    let p := tryDownload env ds ds.sources s
    let q := runBatch env rest p.2
    ((ds.key, p.1) :: q.1, q.2)

/-- `updateSelected(keys)`: keep enabled datasets whose key was requested,
then run the batch. -/
def updateSelected (env : Env) (keys : List String) (cfg : List Dataset)
    (s : St) : List (String × DlResult) × St :=
  runBatch env (cfg.filter (fun x => x.enabled && keys.contains x.key)) s

/-! ### Second variant (`tryDownload (variant 2)`)

The deployment variant performs no probe at all: every source attempt goes
straight to retrieval, and the manifest is never consulted or written. -/

/-- `parsed?.content || parsed?.data || parsed?.results || [parsed]` — the
JavaScript `||` chain of the second variant (no `Array.isArray` guard on the
fields). -/
def jsOr (a : Option JVal) (b : JVal) : JVal :=
  match a with
  | some v => if jsTruthy v then v else b
  | none => b

/-- Record extraction of the second variant. -/
def extractData2 (parsed : JVal) : JVal :=
  match parsed with
  | .jarr _ => parsed
  | _ =>
    jsOr (jsProp parsed "content")
      (jsOr (jsProp parsed "data")
        (jsOr (jsProp parsed "results") (.jarr [parsed])))

/-- `toCSV` applied to the second variant's `data` value, which need not be
an array (`Array.isArray(rows)` fails ⇒ empty string). -/
def toCSVany : JVal → String
  | .jarr xs => toCSV xs
  | _ => ""

/-- One source attempt of the second variant: no probe, no manifest; fetch
and commit directly, with per-type notes. -/
def attemptSource2 (env : Env) (ds : Dataset) (src : Source) (s0 : St) :
    Option DlResult × St :=
  let s := { s0 with retrieveCalls := src.url :: s0.retrieveCalls }
  match src.type, env.retrieve src.url with
  | _, none => (none, s)
  | .zip, some body =>
    match pickLargestCsv (env.extract body) with
    | none => (none, s)
    | some e =>
      (some ⟨true, "ZIP extracted", some src.url⟩,
       { s with outFiles := alSet s.outFiles (ds.key ++ ".csv") e.content })
  | .csv, some body =>
    (some ⟨true, "Downloaded CSV", some src.url⟩,
     { s with outFiles := alSet s.outFiles (ds.key ++ ".csv") body })
  | .json, some body =>
    match env.parseJson body with
    | none => (none, s)
    | some parsed =>
      (some ⟨true, "JSON converted", some src.url⟩,
       { s with
         outFiles := alSet s.outFiles (ds.key ++ ".csv") (toCSVany (extractData2 parsed)) })

/-- The source loop of the second variant's `tryDownload`. -/
def tryDownload2 (env : Env) (ds : Dataset) : List Source → St → DlResult × St
  | [], s => (⟨false, "All sources failed", none⟩, s)
  | src :: rest, s =>
    match attemptSource2 env ds src s with
    | (some r, s') => (r, s')
    | (none, s') => tryDownload2 env ds rest s'

/-! ### Concrete scenarios used by witnesses and counterexamples -/

/-- Probe unavailable, retrieval serves `"NEW"`. -/
def envProbeDown : Env :=
  { head := fun _ => none, retrieve := fun _ => some "NEW",
    extract := fun _ => [], parseJson := fun _ => none, now := 7 }

/-- A state whose out-directory already holds canonical bytes `"OLD"` for
dataset `k` and whose manifest is empty. -/
def stWithOld : St :=
  { outFiles := [("k.csv", "OLD")], manifest := [], savedManifests := [],
    headCalls := [], retrieveCalls := [] }

def srcCsvU : Source := ⟨.csv, "u"⟩

def dsK : Dataset := ⟨"k", true, [srcCsvU]⟩

/-- A stored fingerprint whose etag is `"E"`. -/
def fpE : Fingerprint := ⟨some "E", none, none, "k.csv", 0⟩

/-- Probe succeeds with status 200 and etag `"E"`; retrieval serves `"NEW"`. -/
def envEtagE : Env :=
  { head := fun _ => some ⟨200, some "E", none, none⟩, retrieve := fun _ => some "NEW",
    extract := fun _ => [], parseJson := fun _ => none, now := 7 }

/-- Canonical file `"OLD"` present, fingerprint for `u` stored with etag `"E"`. -/
def stOldFpE : St :=
  { outFiles := [("k.csv", "OLD")], manifest := [("u", fpE)], savedManifests := [],
    headCalls := [], retrieveCalls := [] }

/-- A stored fingerprint with no field set (as a JSON source's probe-less
commit leaves behind). -/
def fpNone : Fingerprint := ⟨none, none, none, "k.csv", 0⟩

/-- Probe succeeds with status 200 returning none of the three cache
headers; retrieval serves `"NEW"`. -/
def envNoHeaders : Env :=
  { head := fun _ => some ⟨200, none, none, none⟩, retrieve := fun _ => some "NEW",
    extract := fun _ => [], parseJson := fun _ => none, now := 7 }

/-- Canonical file `"OLD"` present, all-null fingerprint stored for `u`. -/
def stOldFpNone : St :=
  { outFiles := [("k.csv", "OLD")], manifest := [("u", fpNone)], savedManifests := [],
    headCalls := [], retrieveCalls := [] }

/-- Fingerprint for `u` stored with etag `"E"`, but no canonical file. -/
def stNoFileFpE : St :=
  { outFiles := [], manifest := [("u", fpE)], savedManifests := [],
    headCalls := [], retrieveCalls := [] }

/-- Empty orchestrator state. -/
def stEmpty : St :=
  { outFiles := [], manifest := [], savedManifests := [], headCalls := [],
    retrieveCalls := [] }

def srcJsonU : Source := ⟨.json, "u"⟩

def dsKJson : Dataset := ⟨"k", true, [srcJsonU]⟩

/-- Probe would answer 200/etag `"E"`; retrieval serves a body that parses
to `{"data": []}` (an object whose conventional array field is empty). -/
def envEmptyData : Env :=
  { head := fun _ => some ⟨200, some "E", none, none⟩, retrieve := fun _ => some "J",
    extract := fun _ => [], parseJson := fun _ => some (.jobj [("data", .jarr [])]),
    now := 7 }

/-- `u1` is unreachable for retrieval; `u2` serves `"DATA"`. -/
def envTwoSources : Env :=
  { head := fun _ => none,
    retrieve := fun u => if u = "u2" then some "DATA" else none,
    extract := fun _ => [], parseJson := fun _ => none, now := 7 }

def srcCsvU1 : Source := ⟨.csv, "u1"⟩

def srcCsvU2 : Source := ⟨.csv, "u2"⟩

def dsK2 : Dataset := ⟨"k", true, [srcCsvU1, srcCsvU2]⟩

/-- Retrieval of `u` serves a ZIP body whose extraction holds a single
non-CSV entry. -/
def envZipNoCsv : Env :=
  { head := fun _ => none, retrieve := fun _ => some "Z",
    extract := fun _ => [⟨"readme.txt", 5, "x"⟩], parseJson := fun _ => none,
    now := 7 }

def srcZipU : Source := ⟨.zip, "u"⟩

def dsKZip : Dataset := ⟨"k", true, [srcZipU]⟩

/-! ### Query-engine lemmas -/

theorem rowMatches_nil (row : List (List Char)) : rowMatches [] row = true := by
  simp [rowMatches]

theorem pageOf_append_matched (hs : List (List Char)) (limit offset : Nat)
    (S : List (List (List Char))) (r : List (List Char)) :
    pageOf hs limit offset (S ++ [r]) =
      pageOf hs limit offset S ++
        (if S.length < limit + offset ∧ offset ≤ S.length then [rowToObj hs r] else []) := by
  unfold pageOf
  rw [List.drop_append_eq_append_drop, List.take_append_eq_append_take]
  by_cases h1 : offset ≤ S.length
  · by_cases h2 : S.length < limit + offset
    · have hd : offset - S.length = 0 := by omega
      simp only [hd, List.drop_zero, if_pos (And.intro h2 h1)]
      have htake : List.take (limit - (List.drop offset S).length) [r] = [r] := by
        apply List.take_of_length_le
        simp only [List.length_drop, List.length_singleton]
        omega
      rw [htake]
      simp
    · have hd : offset - S.length = 0 := by omega
      have ht : limit - (List.drop offset S).length = 0 := by
        simp only [List.length_drop]; omega
      simp only [hd, List.drop_zero, ht, List.take_zero]
      simp [h2]
  · have hdrop2 : List.drop (offset - S.length) [r] = [] := by
      apply List.drop_eq_nil_of_le; simp; omega
    simp only [hdrop2, List.take_nil, List.append_nil]
    simp [h1]

theorem length_pageOf (hs : List (List Char)) (limit offset : Nat)
    (S : List (List (List Char))) :
    (pageOf hs limit offset S).length = min limit (S.length - offset) := by
  simp [pageOf]

/-- Invariant of the stream fold: after the header row and any prefix whose
matches are exactly `S`, the accumulator holds `total = S.length` and the
rows are the `(offset, offset+limit]` page of `S`. -/
theorem qStep_inv (limit offset : Nat) (q : List Char)
    (hs : List (List Char)) (S : List (List (List Char))) (row : List (List Char)) :
    qStep limit offset q ⟨some hs, pageOf hs limit offset S, S.length⟩ row =
      ⟨some hs,
       pageOf hs limit offset (S ++ if rowMatches q row then [row] else []),
       (S ++ if rowMatches q row then [row] else []).length⟩ := by
  by_cases hm : rowMatches q row
  · simp only [hm, if_true, qStep]
    rw [pageOf_append_matched]
    have hlen : (pageOf hs limit offset S).length = min limit (S.length - offset) :=
      length_pageOf hs limit offset S
    by_cases hpush : (pageOf hs limit offset S).length < limit ∧ S.length + 1 > offset
    · have hc : S.length < limit + offset ∧ offset ≤ S.length := by
        rw [hlen] at hpush; omega
      simp [hpush, hc]
    · have hc : ¬ (S.length < limit + offset ∧ offset ≤ S.length) := by
        rw [hlen] at hpush; omega
      simp [hpush, hc]
  · simp [qStep, hm]

theorem runQuery_fold_inv (limit offset : Nat) (q : List Char)
    (hs : List (List Char)) (rows : List (List (List Char))) :
    ∀ S : List (List (List Char)),
      rows.foldl (qStep limit offset q) ⟨some hs, pageOf hs limit offset S, S.length⟩ =
        ⟨some hs,
         pageOf hs limit offset (S ++ rows.filter (rowMatches q)),
         (S ++ rows.filter (rowMatches q)).length⟩ := by
  induction rows with
  | nil => intro S; simp
  | cons r rs ih =>
    intro S
    rw [List.foldl_cons, qStep_inv]
    by_cases hm : rowMatches q r
    · rw [ih]
      simp [hm, List.filter_cons]
    · rw [ih]
      simp [hm, List.filter_cons]

/-- Full characterisation of one streamed query: header row captured,
`totalMatched` is the number of matching data records, and the returned rows
are exactly the `(offset, offset+limit]` page of the matches in file order. -/
theorem runQuery_eq (limit offset : Nat) (q : List Char)
    (hrow : List (List Char)) (drows : List (List (List Char))) :
    runQuery limit offset q (hrow :: drows) =
      ⟨some hrow,
       pageOf hrow limit offset (drows.filter (rowMatches q)),
       (drows.filter (rowMatches q)).length⟩ := by
  unfold runQuery
  rw [List.foldl_cons]
  have h0 : qStep limit offset q ⟨none, [], 0⟩ hrow = ⟨some hrow, [], 0⟩ := by
    simp [qStep]
  rw [h0]
  have h := runQuery_fold_inv limit offset q hrow drows []
  have hnil : pageOf hrow limit offset ([] : List (List (List Char))) = [] := by
    simp [pageOf]
  rw [hnil] at h
  simpa using h

theorem joinSpace_cons_cons (r r2 : List Char) (t : List (List Char)) :
    joinSpace (r :: r2 :: t) = r ++ ' ' :: joinSpace (r2 :: t) := by
  simp [joinSpace, List.intersperse_cons_cons]

theorem mem_infix_joinSpace (f : List Char) (row : List (List Char))
    (hf : f ∈ row) : f <:+: joinSpace row := by
  induction row with
  | nil => simp at hf
  | cons r rs ih =>
    rcases List.mem_cons.mp hf with h | h
    · subst h
      cases rs with
      | nil => simp [joinSpace]
      | cons r2 t =>
        rw [joinSpace_cons_cons]
        exact (List.prefix_append f (' ' :: joinSpace (r2 :: t))).isInfix
    · cases rs with
      | nil => simp at h
      | cons r2 t =>
        rw [joinSpace_cons_cons]
        have hsuf : joinSpace (r2 :: t) <:+ r ++ ' ' :: joinSpace (r2 :: t) :=
          (List.suffix_cons ' ' (joinSpace (r2 :: t))).trans
            (List.suffix_append r (' ' :: joinSpace (r2 :: t)))
        exact (ih h).trans hsuf.isInfix

/-! ## Claim C4 -/

/-- **C4** (confirmed): for a canonical file with header row `hrow` and data
records `drows`, of which `N := (drows.filter (rowMatches q)).length` match
the filter, the streamed query returns exactly `min L (N - O)` rows — the
matches of 1-based rank in `(O, O+L]`, in file order — and `totalMatched`
is `N`, independent of `limit` and `offset`. -/
theorem C4_query_pagination (limit offset : Nat) (q : List Char)
    (hrow : List (List Char)) (drows : List (List (List Char))) :
    (runQuery limit offset q (hrow :: drows)).total
        = (drows.filter (rowMatches q)).length
    ∧ (runQuery limit offset q (hrow :: drows)).rows.length
        = min limit ((drows.filter (rowMatches q)).length - offset)
    ∧ (runQuery limit offset q (hrow :: drows)).rows
        = pageOf hrow limit offset (drows.filter (rowMatches q)) := by
  rw [runQuery_eq]
  exact ⟨rfl, length_pageOf hrow limit offset (drows.filter (rowMatches q)), rfl⟩

/-! ## Claim C5 -/

/-- **C5 counterexample**: with query text `"b c"` (non-empty) and the data
record `["ab", "cd"]`, the engine counts the record as a match
(`totalMatched = 1`) although no single field's lowercased text contains the
lowercased query — the match spans the space-join of two fields.  This
falsifies the claim's "if and only if some single field … contains" reading. -/
theorem C5_counterexample :
    (['b', ' ', 'c'] : List Char) ≠ []
    ∧ (runQuery 10 0 (lowerL ['b', ' ', 'c'])
        [[['h', '1'], ['h', '2']], [['a', 'b'], ['c', 'd']]]).total = 1
    ∧ ¬ ∃ f ∈ [['a', 'b'], ['c', 'd']], lowerL ['b', ' ', 'c'] <:+: lowerL f := by
  refine ⟨by decide, by decide, by decide⟩

/-- **C5 amended**: a data record matches the (lowercased) filter text iff
the text is empty or occurs in the lowercase of the whitespace-joined
concatenation of all its fields; consequently some single field containing
the text still implies a match, but a match may also span field boundaries. -/
theorem C5_match_characterisation (q0 : List Char) (row : List (List Char)) :
    (rowMatches (lowerL q0) row = true
        ↔ (q0 = [] ∨ lowerL q0 <:+: lowerL (joinSpace row)))
    ∧ ((∃ f ∈ row, lowerL q0 <:+: lowerL f) → rowMatches (lowerL q0) row = true) := by
  constructor
  · simp [rowMatches, lowerL, List.isEmpty_iff]
  · rintro ⟨f, hf, hinf⟩
    have hj : lowerL f <:+: lowerL (joinSpace row) :=
      List.IsInfix.map Char.toLower (mem_infix_joinSpace f row hf)
    have : lowerL q0 <:+: lowerL (joinSpace row) := hinf.trans hj
    simp [rowMatches, this]

/-- Witness for C5's amended theorem: record `["AB"]` with query `"b"`. -/
theorem C5_match_characterisation_witness :
    rowMatches (lowerL ['B']) [['A', 'b']] = true :=
  (C5_match_characterisation ['B'] [['A', 'b']]).2 ⟨['A', 'b'], by decide, by decide⟩

/-! ### Normalizer lemmas -/

theorem escQuotes_eq_flatMap (l : List Char) :
    escQuotes l = l.flatMap (fun c => if c = '"' then [c, c] else [c]) := by
  induction l with
  | nil => rfl
  | cons c cs ih =>
    by_cases h : c = '"'
    · subst h; simp [escQuotes, ih]
    · simp [escQuotes, h, ih]

theorem esc_jstr (h : String) : esc (some (.jstr h)) = specEsc h := by
  simp [esc, specEsc, jsString, escQuotes_eq_flatMap]

theorem esc_eq_specEsc_specCell (r : JVal) (h : String) :
    esc (jsProp r h) = specEsc (specCell r h) := by
  unfold specCell
  cases hv : jsProp r h with
  | none => simp [esc, specEsc, escQuotes_eq_flatMap]
  | some w => cases w <;> simp [esc, specEsc, escQuotes_eq_flatMap]

theorem firstSeen_cons (k : String) (ks : List String) :
    firstSeen (k :: ks) = k :: firstSeen (ks.filter (fun x => x ≠ k)) := by
  rw [firstSeen]

theorem mem_firstSeen (l : List String) (x : String) :
    x ∈ firstSeen l ↔ x ∈ l := by
  induction l using firstSeen.induct with
  | case1 => simp [firstSeen]
  | case2 k ks ih =>
    rw [firstSeen_cons, List.mem_cons, ih, List.mem_filter]
    by_cases hx : x = k <;> simp [hx]

theorem nodup_firstSeen (l : List String) : (firstSeen l).Nodup := by
  induction l using firstSeen.induct with
  | case1 => simp [firstSeen]
  | case2 k ks ih =>
    rw [firstSeen_cons]
    refine List.Nodup.cons ?_ ih
    intro hk
    have := (mem_firstSeen _ k).mp hk
    simp [List.mem_filter] at this

theorem indexOf_filter_lt (p : String → Bool) :
    ∀ (ks : List String) (a b : String), p a = true → p b = true → a ≠ b →
      (ks.filter p).indexOf a < (ks.filter p).indexOf b →
      ks.indexOf a < ks.indexOf b := by
  intro ks
  induction ks with
  | nil => intro a b _ _ _ h; simp at h
  | cons x t ih =>
    intro a b hpa hpb hab h
    by_cases hxa : x = a
    · subst hxa
      rw [List.indexOf_cons_self, List.indexOf_cons_ne t hab]
      exact Nat.succ_pos _
    · by_cases hxb : x = b
      · subst hxb
        rw [List.filter_cons_of_pos hpb, List.indexOf_cons_self] at h
        omega
      · rw [List.indexOf_cons_ne t hxa, List.indexOf_cons_ne t hxb]
        refine Nat.succ_lt_succ (ih a b hpa hpb hab ?_)
        cases hpx : p x with
        | true =>
          rw [List.filter_cons_of_pos hpx, List.indexOf_cons_ne _ hxa,
              List.indexOf_cons_ne _ hxb] at h
          omega
        | false =>
          rwa [List.filter_cons_of_neg (by simp [hpx])] at h

theorem pairwise_indexOf_firstSeen (l : List String) :
    (firstSeen l).Pairwise (fun a b => l.indexOf a < l.indexOf b) := by
  induction l using firstSeen.induct with
  | case1 => simp [firstSeen]
  | case2 k ks ih =>
    rw [firstSeen_cons]
    refine List.Pairwise.cons ?_ ?_
    · intro b hb
      have hbf : b ∈ ks.filter (fun x => x ≠ k) := (mem_firstSeen _ b).mp hb
      have hbk : b ≠ k := by
        have := (List.mem_filter.mp hbf).2
        simpa using this
      rw [List.indexOf_cons_self, List.indexOf_cons_ne ks (fun he => hbk he.symm)]
      exact Nat.succ_pos _
    · refine List.Pairwise.imp_of_mem ?_ ih
      intro a b ha hb hlt
      have haf := (mem_firstSeen _ a).mp ha
      have hbf := (mem_firstSeen _ b).mp hb
      have hak : a ≠ k := by have := (List.mem_filter.mp haf).2; simpa using this
      have hbk : b ≠ k := by have := (List.mem_filter.mp hbf).2; simpa using this
      have hab : a ≠ b := by
        intro he; subst he; exact Nat.lt_irrefl _ hlt
      rw [List.indexOf_cons_ne ks (fun he => hak he.symm),
          List.indexOf_cons_ne ks (fun he => hbk he.symm)]
      refine Nat.succ_lt_succ ?_
      exact indexOf_filter_lt _ ks a b (by simp [hak]) (by simp [hbk]) hab hlt

theorem setDedup_go (ks : List String) :
    ∀ acc : List String,
      List.foldl (fun acc k => if k ∈ acc then acc else acc ++ [k]) acc ks
        = acc ++ firstSeen (ks.filter (fun x => x ∉ acc)) := by
  induction ks with
  | nil => intro acc; simp [firstSeen]
  | cons k t ih =>
    intro acc
    rw [List.foldl_cons]
    by_cases hk : k ∈ acc
    · rw [if_pos hk, ih, List.filter_cons]
      simp [hk]
    · rw [if_neg hk, ih, List.filter_cons]
      have hkk : (decide (k ∉ acc)) = true := by simp [hk]
      have hfe : List.filter (fun x => decide (x ∉ acc ++ [k])) t
          = List.filter (fun a => decide (a ≠ k) && decide (a ∉ acc)) t := by
        apply List.filter_congr
        intro x _
        by_cases hxk : x = k <;> by_cases hxa : x ∈ acc <;>
          simp [hxk, hxa, List.mem_append]
      rw [if_pos hkk, firstSeen_cons, List.filter_filter, List.append_assoc,
          List.singleton_append, hfe]

theorem setDedup_eq_firstSeen (l : List String) : setDedup l = firstSeen l := by
  unfold setDedup
  rw [setDedup_go l []]
  have : l.filter (fun x => x ∉ ([] : List String)) = l :=
    List.filter_eq_self.mpr (fun x _ => by simp)
  rw [this, List.nil_append]

theorem toCSV_eq_toCSVspec (rows : List JVal) : toCSV rows = toCSVspec rows := by
  cases rows with
  | nil => rfl
  | cons r rs =>
    unfold toCSV toCSVspec
    rw [setDedup_eq_firstSeen]
    simp only [List.isEmpty_cons, if_neg (by simp : ¬ false = true)]
    simp only [esc_jstr, esc_eq_specEsc_specCell]

/-! ## Claim C6 -/

/-- **C6** (confirmed): for every non-empty record list, `toCSV` equals the
spec-side normalizer (header = union of keys in first-seen order, each line
in header order, `specEsc` quoting with doubled internal quotes); moreover
the header list is duplicate-free, contains exactly the keys occurring in
the records, and lists them in strictly increasing order of first
occurrence; and a record missing a key renders that cell as the escaped
empty string `""`. -/
theorem C6_toCSV_normalization (rows : List JVal) (_hne : rows ≠ []) :
    toCSV rows = toCSVspec rows
    ∧ (setDedup (rows.flatMap jsKeys)).Nodup
    ∧ (∀ k, k ∈ setDedup (rows.flatMap jsKeys) ↔ k ∈ rows.flatMap jsKeys)
    ∧ (setDedup (rows.flatMap jsKeys)).Pairwise
        (fun a b => (rows.flatMap jsKeys).indexOf a < (rows.flatMap jsKeys).indexOf b)
    ∧ (∀ fields, JVal.jobj fields ∈ rows →
        ∀ h, h ∉ fields.map Prod.fst → esc (jsProp (.jobj fields) h) = "\"\"") := by
  refine ⟨toCSV_eq_toCSVspec rows, ?_, ?_, ?_, ?_⟩
  · rw [setDedup_eq_firstSeen]; exact nodup_firstSeen _
  · intro k; rw [setDedup_eq_firstSeen]; exact mem_firstSeen _ k
  · rw [setDedup_eq_firstSeen]; exact pairwise_indexOf_firstSeen _
  · intro fields _ h hnot
    have hlk : (fields.lookup h) = none := by
      rw [List.lookup_eq_none_iff]
      intro p hp
      simp only [bne_iff_ne, ne_eq]
      intro hbe
      exact hnot (by rw [hbe]; exact List.mem_map_of_mem Prod.fst hp)
    simp [jsProp, hlk, esc, escQuotes]

/-- Witness for C6 at the spec's heterogeneous-keys example. -/
theorem C6_witness :
    toCSV [JVal.jobj [("a", .jstr "1")], JVal.jobj [("b", .jstr "2")]]
        = toCSVspec [JVal.jobj [("a", .jstr "1")], JVal.jobj [("b", .jstr "2")]]
    ∧ toCSV [JVal.jobj [("a", .jstr "1")], JVal.jobj [("b", .jstr "2")]]
        = "\"a\",\"b\"\n\"1\",\"\"\n\"\",\"2\"" :=
  ⟨(C6_toCSV_normalization _ (List.cons_ne_nil _ _)).1, rfl⟩

/-! ### ZIP selection lemmas -/

theorem find?_congr_mem {α : Type} (p q : α → Bool) :
    ∀ l : List α, (∀ x ∈ l, p x = q x) → l.find? p = l.find? q := by
  intro l
  induction l with
  | nil => intro _; rfl
  | cons x t ih =>
    intro hpq
    have hx := hpq x (List.mem_cons_self x t)
    rw [List.find?_cons, List.find?_cons, hx]
    cases hq : q x with
    | true => rfl
    | false => exact ih (fun y hy => hpq y (List.mem_cons_of_mem x hy))

theorem exists_max_size (c : ZipEntry) (t : List ZipEntry) :
    ∃ e ∈ c :: t, ∀ x ∈ c :: t, x.size ≤ e.size := by
  induction t generalizing c with
  | nil => exact ⟨c, by simp⟩
  | cons d u ih =>
    obtain ⟨e, he, hmax⟩ := ih d
    by_cases hce : e.size ≤ c.size
    · refine ⟨c, List.mem_cons_self c _, ?_⟩
      intro x hx
      rcases List.mem_cons.mp hx with h | h
      · subst h; exact Nat.le_refl _
      · exact (hmax x h).trans hce
    · refine ⟨e, List.mem_cons_of_mem c he, ?_⟩
      intro x hx
      rcases List.mem_cons.mp hx with h | h
      · subst h; omega
      · exact hmax x h

theorem pickFold (l : List ZipEntry) :
    ∀ (b : ZipEntry) (s : Nat),
      l.foldl (fun acc c => if acc.2 < c.size then (c, c.size) else acc) (b, s)
        = match l.find? (fun e =>
              decide (s < e.size) && l.all (fun e2 => e2.size ≤ e.size)) with
          | some e => (e, e.size)
          | none => (b, s) := by
  induction l with
  | nil => intro b s; rfl
  | cons c t ih =>
    intro b s
    rw [List.foldl_cons]
    by_cases hc : s < c.size
    · rw [if_pos hc, ih c c.size]
      by_cases hall : t.all (fun e2 => e2.size ≤ c.size) = true
      · have hfindt : t.find? (fun e =>
            decide (c.size < e.size) && t.all (fun e2 => e2.size ≤ e.size)) = none := by
          rw [List.find?_eq_none]
          intro x hx
          have hxle : x.size ≤ c.size := by
            simpa using List.all_eq_true.mp hall x hx
          simp only [Bool.and_eq_true, decide_eq_true_eq, not_and]
          intro hlt
          omega
        have hcons : (c :: t).find? (fun e =>
            decide (s < e.size) && (c :: t).all (fun e2 => e2.size ≤ e.size)) = some c := by
          apply List.find?_cons_of_pos
          simp only [List.all_cons, Bool.and_eq_true, decide_eq_true_eq]
          exact ⟨hc, by simp, hall⟩
        rw [hfindt, hcons]
      · have hex : ∃ x ∈ t, c.size < x.size := by
          by_contra hno
          push_neg at hno
          exact hall (List.all_eq_true.mpr (fun x hx => by
            simpa using hno x hx))
        obtain ⟨x, hx, hxgt⟩ := hex
        have hcons : (c :: t).find? (fun e =>
            decide (s < e.size) && (c :: t).all (fun e2 => e2.size ≤ e.size))
            = t.find? (fun e =>
                decide (s < e.size) && (c :: t).all (fun e2 => e2.size ≤ e.size)) := by
          apply List.find?_cons_of_neg
          simp only [List.all_cons, Bool.and_eq_true, decide_eq_true_eq, not_and, and_imp]
          intro _ _ h2
          have := List.all_eq_true.mp h2 x hx
          simp only [decide_eq_true_eq] at this
          omega
        have hpq : ∀ e ∈ t,
            (decide (c.size < e.size) && t.all (fun e2 => e2.size ≤ e.size))
              = (decide (s < e.size) && (c :: t).all (fun e2 => e2.size ≤ e.size)) := by
          intro e he
          cases hall2 : t.all (fun e2 => e2.size ≤ e.size) with
          | false => simp [hall2]
          | true =>
            have hxe : x.size ≤ e.size := by
              simpa using List.all_eq_true.mp hall2 x hx
            have hce : c.size < e.size := by omega
            have hse : s < e.size := by omega
            simp [hall2, hce, hse]
            omega
        rw [hcons, ← find?_congr_mem _ _ t hpq]
        have hsome : (t.find? (fun e =>
            decide (c.size < e.size) && t.all (fun e2 => e2.size ≤ e.size))).isSome := by
          rw [List.find?_isSome]
          cases t with
          | nil => cases hx
          | cons d u =>
            obtain ⟨e, he, hmax⟩ := exists_max_size d u
            have hxe : x.size ≤ e.size := hmax x hx
            refine ⟨e, he, ?_⟩
            simp only [Bool.and_eq_true, decide_eq_true_eq]
            exact ⟨by omega, List.all_eq_true.mpr (fun y hy => by simp [hmax y hy])⟩
        obtain ⟨e, he⟩ := Option.isSome_iff_exists.mp hsome
        rw [he]
    · rw [if_neg hc, ih b s]
      have hcons : (c :: t).find? (fun e =>
          decide (s < e.size) && (c :: t).all (fun e2 => e2.size ≤ e.size))
          = t.find? (fun e =>
              decide (s < e.size) && (c :: t).all (fun e2 => e2.size ≤ e.size)) := by
        apply List.find?_cons_of_neg
        simp only [Bool.and_eq_true, decide_eq_true_eq, not_and]
        intro h1
        omega
      have hpq : ∀ e ∈ t,
          (decide (s < e.size) && t.all (fun e2 => e2.size ≤ e.size))
            = (decide (s < e.size) && (c :: t).all (fun e2 => e2.size ≤ e.size)) := by
        intro e _
        by_cases hse : s < e.size
        · have hcle : c.size ≤ e.size := by omega
          simp [hse, hcle]
        · simp [hse]
      rw [hcons, ← find?_congr_mem _ _ t hpq]

theorem pickLargestCsv_eq_firstMaxCsv (files : List ZipEntry) :
    pickLargestCsv files = firstMaxCsv files := by
  unfold pickLargestCsv firstMaxCsv
  cases hcs : files.filter (fun f => isCsvName f.name) with
  | nil => rfl
  | cons c0 t =>
    dsimp only
    rw [pickFold (c0 :: t) c0 0]
    by_cases hz : ∃ x ∈ c0 :: t, 0 < x.size
    · have hpq : ∀ e ∈ c0 :: t,
          (decide (0 < e.size) && (c0 :: t).all (fun e2 => e2.size ≤ e.size))
            = (c0 :: t).all (fun e2 => e2.size ≤ e.size) := by
        intro e he
        cases hall : (c0 :: t).all (fun e2 => e2.size ≤ e.size) with
        | false => simp
        | true =>
          obtain ⟨x, hx, hxpos⟩ := hz
          have hxe : x.size ≤ e.size := by
            simpa using List.all_eq_true.mp hall x hx
          simp only [Bool.and_true]
          simp
          omega
      rw [find?_congr_mem _ _ _ hpq]
      have hsome : ((c0 :: t).find?
          (fun e => (c0 :: t).all (fun e2 => e2.size ≤ e.size))).isSome := by
        rw [List.find?_isSome]
        obtain ⟨e, he, hmax⟩ := exists_max_size c0 t
        exact ⟨e, he, by simpa using hmax⟩
      obtain ⟨e, he⟩ := Option.isSome_iff_exists.mp hsome
      rw [he]
    · push_neg at hz
      have hfind0 : (c0 :: t).find? (fun e =>
          decide (0 < e.size) && (c0 :: t).all (fun e2 => e2.size ≤ e.size)) = none := by
        rw [List.find?_eq_none]
        intro x hx
        have := hz x hx
        simp only [Bool.and_eq_true, decide_eq_true_eq, not_and]
        omega
      have hq : (c0 :: t).find?
          (fun e => (c0 :: t).all (fun e2 => e2.size ≤ e.size)) = some c0 := by
        apply List.find?_cons_of_pos
        rw [List.all_eq_true]
        intro x hx
        have h0 : x.size = 0 := by have := hz x hx; omega
        simp [h0]
      rw [hfind0, hq]

/-! ### Acquisition lemmas -/

/-- A failed source attempt (an exception caught by the loop) never touches
the out-directory, the in-memory manifest or the persisted manifest. -/
theorem attemptSource_none_state (env : Env) (ds : Dataset) (src : Source) (s s' : St)
    (h : attemptSource env ds src s = (none, s')) :
    s'.outFiles = s.outFiles ∧ s'.manifest = s.manifest
      ∧ s'.savedManifests = s.savedManifests := by
  by_cases hj : src.type = SrcType.json
  · unfold attemptSource at h
    simp only [hj, reduceIte, beq_self_eq_true, Bool.true_or] at h
    split at h
    · cases h
      exact ⟨rfl, rfl, rfl⟩
    · cases h
  · unfold attemptSource at h
    simp only [hj, reduceIte] at h
    split at h
    · split at h
      · cases h
        exact ⟨rfl, rfl, rfl⟩
      · cases h
    · split at h
      · cases h
      · split at h
        · split at h
          · cases h
            exact ⟨rfl, rfl, rfl⟩
          · cases h
        · cases h
          exact ⟨rfl, rfl, rfl⟩

theorem alSet_lookup_self {α : Type} (m : List (String × α)) (k : String) (v : α) :
    (alSet m k v).lookup k = some v := by
  induction m with
  | nil => simp [alSet]
  | cons p rest ih =>
    obtain ⟨k', v'⟩ := p
    by_cases hk : k' = k
    · simp [alSet, hk]
    · simp only [alSet, if_neg hk, List.lookup_cons]
      have : (k == k') = false := by
        simp only [beq_eq_false_iff_ne, ne_eq]
        exact fun he => hk he.symm
      rw [this]
      exact ih

/-- With no stored fingerprint, the `changed` test is always true. -/
theorem changedTest_none (etag lm clen : Option String) :
    changedTest etag lm clen none = true := by
  simp [changedTest, truthy]

/-- With a stored fingerprint having at least one field set, and every
header the probe returned equal to the stored value, the `changed` test is
false. -/
theorem changedTest_unchanged_false (etag lm clen : Option String) (fp : Fingerprint)
    (hne : truthy fp.etag ∨ truthy fp.lastModified ∨ truthy fp.contentLength)
    (he : etag.isSome → etag = fp.etag)
    (hl : lm.isSome → lm = fp.lastModified)
    (hc : clen.isSome → clen = fp.contentLength) :
    changedTest etag lm clen (some fp) = false := by
  have hbe : (some fp).bind Fingerprint.etag = fp.etag := rfl
  have hbl : (some fp).bind Fingerprint.lastModified = fp.lastModified := rfl
  have hbc : (some fp).bind Fingerprint.contentLength = fp.contentLength := rfl
  have h0 : (!truthy fp.etag && !truthy fp.lastModified
      && !truthy fp.contentLength) = false := by
    rcases hne with h | h | h <;> simp [h]
  have h1 : (truthy etag && !(etag == fp.etag)) = false := by
    cases hte : truthy etag
    · simp
    · have hs : etag.isSome := by
        cases etag
        · simp [truthy] at hte
        · simp
      rw [he hs]
      simp
  have h2 : (truthy lm && !(lm == fp.lastModified)) = false := by
    cases hte : truthy lm
    · simp
    · have hs : lm.isSome := by
        cases lm
        · simp [truthy] at hte
        · simp
      rw [hl hs]
      simp
  have h3 : (truthy clen && !(clen == fp.contentLength)) = false := by
    cases hte : truthy clen
    · simp
    · have hs : clen.isSome := by
        cases clen
        · simp [truthy] at hte
        · simp
      rw [hc hs]
      simp
  unfold changedTest
  rw [hbe, hbl, hbc, h0, h1, h2, h3]
  rfl

/-- A successful attempt short-circuits the source loop. -/
theorem tryDownload_cons_some (env : Env) (ds : Dataset) (src : Source)
    (rest : List Source) (s : St) (r : DlResult) (s' : St)
    (h : attemptSource env ds src s = (some r, s')) :
    tryDownload env ds (src :: rest) s = (r, s') := by
  unfold tryDownload
  rw [h]

/-- A failed attempt passes its state to the remaining sources. -/
theorem tryDownload_cons_none (env : Env) (ds : Dataset) (src : Source)
    (rest : List Source) (s : St) (s' : St)
    (h : attemptSource env ds src s = (none, s')) :
    tryDownload env ds (src :: rest) s = tryDownload env ds rest s' := by
  show (match attemptSource env ds src s with
        | (some r, s') => (r, s')
        | (none, s') => tryDownload env ds rest s') = tryDownload env ds rest s'
  rw [h]

/-- Same for the second variant. -/
theorem tryDownload2_cons_some (env : Env) (ds : Dataset) (src : Source)
    (rest : List Source) (s : St) (r : DlResult) (s' : St)
    (h : attemptSource2 env ds src s = (some r, s')) :
    tryDownload2 env ds (src :: rest) s = (r, s') := by
  unfold tryDownload2
  rw [h]

theorem tryDownload2_cons_none (env : Env) (ds : Dataset) (src : Source)
    (rest : List Source) (s : St) (s' : St)
    (h : attemptSource2 env ds src s = (none, s')) :
    tryDownload2 env ds (src :: rest) s = tryDownload2 env ds rest s' := by
  show (match attemptSource2 env ds src s with
        | (some r, s') => (r, s')
        | (none, s') => tryDownload2 env ds rest s') = tryDownload2 env ds rest s'
  rw [h]

/-- A csv source with no stored fingerprint and a successful retrieval
commits: canonical file written with the body, fingerprint stored and
persisted. -/
theorem attemptSource_csv_fresh (env : Env) (ds : Dataset) (src : Source) (s : St)
    (hty : src.type = SrcType.csv)
    (hlook : s.manifest.lookup src.url = none)
    (body : String) (hret : env.retrieve src.url = some body) :
    ∃ s2, attemptSource env ds src s = (some ⟨true, "Downloaded", some src.url⟩, s2)
      ∧ s2.outFiles = alSet s.outFiles (ds.key ++ ".csv") body
      ∧ (s2.manifest.lookup src.url).isSome
      ∧ s2.savedManifests = s2.manifest :: s.savedManifests := by
  obtain ⟨ty, url⟩ := src
  cases hty
  unfold attemptSource fetchStage
  simp only [reduceIte, reduceCtorEq]
  rw [hlook]
  simp only [changedTest_none, Bool.or_true, if_true, hret]
  refine ⟨_, rfl, rfl, ?_, rfl⟩
  exact Option.isSome_iff_exists.mpr ⟨_, alSet_lookup_self _ _ _⟩

/-- The fetch-and-normalize stage only writes the out-directory: manifest,
persisted snapshots and call logs pass through unchanged. -/
theorem fetchStage_some_state (env : Env) (ds : Dataset) (src : Source) (s s1 : St)
    (h : fetchStage env ds src s = some s1) :
    s1.manifest = s.manifest ∧ s1.savedManifests = s.savedManifests
      ∧ s1.headCalls = s.headCalls ∧ s1.retrieveCalls = s.retrieveCalls := by
  unfold fetchStage at h
  repeat' split at h
  all_goals first
    | (cases h; exact ⟨rfl, rfl, rfl, rfl⟩)
    | cases h

/-! ## Claim C1 -/

/-- **C1 counterexample**: the probe of `u` fails entirely
(`envProbeDown.head u = none`) and the canonical file `k.csv` already exists
with bytes `"OLD"`, yet the orchestrator performs a full retrieval
(`retrieveCalls = [u]`), overwrites the canonical file with `"NEW"`, and
reports note `"Downloaded"` — it does not reuse the existing file and does
not report the source as up to date. -/
theorem C1_counterexample :
    envProbeDown.head "u" = none
    ∧ stWithOld.outFiles.lookup "k.csv" = some "OLD"
    ∧ (tryDownload envProbeDown dsK [srcCsvU] stWithOld).1.note = "Downloaded"
    ∧ (tryDownload envProbeDown dsK [srcCsvU] stWithOld).2.outFiles.lookup "k.csv"
        = some "NEW"
    ∧ (tryDownload envProbeDown dsK [srcCsvU] stWithOld).2.retrieveCalls = ["u"] := by
  refine ⟨rfl, rfl, ?_, ?_, ?_⟩ <;> decide

/-- **C1 amended**: for a csv or zip source whose probe fails entirely or
returns a server-error status, the orchestrator always performs a full
retrieval (the fetch branch), regardless of whether a canonical file exists;
such an attempt never reports the source as `"Up-to-date"`. -/
theorem C1_probe_failure_forces_fetch (env : Env) (ds : Dataset) (src : Source) (s : St)
    (hty : src.type = SrcType.csv ∨ src.type = SrcType.zip)
    (hp : env.head src.url = none
          ∨ ∃ hr, env.head src.url = some hr ∧ 400 ≤ hr.status) :
    (attemptSource env ds src s).2.retrieveCalls = src.url :: s.retrieveCalls
    ∧ ∀ r, (attemptSource env ds src s).1 = some r → r.note ≠ "Up-to-date" := by
  obtain ⟨ty, url⟩ := src
  have hj : ¬ (Source.type ⟨ty, url⟩ = SrcType.json) := by
    rcases hty with hty | hty <;> cases hty <;> simp
  have hjb : (Source.type ⟨ty, url⟩ == SrcType.json) = false := by
    rcases hty with hty | hty <;> cases hty <;> rfl
  have hcond :
      ((env.head url).isNone
        || (match env.head url with
            | none => false
            | some hr => decide (400 ≤ hr.status))) = true := by
    rcases hp with hp | ⟨hr, hp, hst⟩
    · simp [hp]
    · simp [hp, hst]
  unfold attemptSource
  rw [if_neg hj, if_neg hj]
  rcases Bool.or_eq_true_iff.mp hcond with hc | hc <;>
    simp only [hjb, hc, Bool.true_or, Bool.or_true, Bool.false_or, if_true] <;>
    refine ⟨?_, ?_⟩
  · split
    · rfl
    · rename_i s1 hfs
      have hsf := fetchStage_some_state _ _ _ _ _ hfs
      simp [hsf.2.2.2]
  · intro r hrr
    split at hrr
    · cases hrr
    · cases hrr
      split <;> simp
  · split
    · rfl
    · rename_i s1 hfs
      have hsf := fetchStage_some_state _ _ _ _ _ hfs
      simp [hsf.2.2.2]
  · intro r hrr
    split at hrr
    · cases hrr
    · cases hrr
      split <;> simp

/-- Witness for C1's amended theorem at the probe-down scenario. -/
theorem C1_witness :
    (attemptSource envProbeDown dsK srcCsvU stWithOld).2.retrieveCalls = ["u"] :=
  (C1_probe_failure_forces_fetch envProbeDown dsK srcCsvU stWithOld
    (Or.inl rfl) (Or.inl rfl)).1

/-! ## Claim C2 -/

/-- **C2 counterexample**: the fingerprint stored for `u` exists but has all
three fields null, the probe succeeds with status 200 returning none of the
three headers (so every field it returned — vacuously — matches), and the
canonical file exists; yet the orchestrator refetches: note `"Downloaded"`,
a retrieve call is made, the canonical bytes change from `"OLD"` to
`"NEW"`, and the stored fingerprint is rewritten. -/
theorem C2_counterexample :
    (stOldFpNone.manifest.lookup "u").isSome
    ∧ envNoHeaders.head "u" = some ⟨200, none, none, none⟩
    ∧ (stOldFpNone.outFiles.lookup "k.csv") = some "OLD"
    ∧ (tryDownload envNoHeaders dsK [srcCsvU] stOldFpNone).1.note = "Downloaded"
    ∧ (tryDownload envNoHeaders dsK [srcCsvU] stOldFpNone).2.outFiles.lookup "k.csv"
        = some "NEW"
    ∧ (tryDownload envNoHeaders dsK [srcCsvU] stOldFpNone).2.retrieveCalls = ["u"] := by
  refine ⟨?_, rfl, rfl, ?_, ?_, ?_⟩ <;> decide

/-- **C2 amended**: for a csv or zip source with a stored fingerprint having
at least one of its three fields set, if the probe succeeds below status 400
and every field it returns equals the stored value, and the canonical file
exists, the refresh returns note `"Up-to-date"` and the state is unchanged
except for the recorded probe: no retrieve call, canonical bytes untouched,
fingerprint unaltered, nothing persisted. -/
theorem C2_unchanged_fingerprint_up_to_date (env : Env) (ds : Dataset) (src : Source)
    (rest : List Source) (s : St) (fp : Fingerprint) (hr : HeadResp)
    (hty : src.type = SrcType.csv ∨ src.type = SrcType.zip)
    (hh : env.head src.url = some hr) (hst : hr.status < 400)
    (hfp : s.manifest.lookup src.url = some fp)
    (hone : truthy fp.etag ∨ truthy fp.lastModified ∨ truthy fp.contentLength)
    (he : hr.etag.isSome → hr.etag = fp.etag)
    (hl : hr.lastModified.isSome → hr.lastModified = fp.lastModified)
    (hc : hr.contentLength.isSome → hr.contentLength = fp.contentLength)
    (hex : (s.outFiles.lookup (ds.key ++ ".csv")).isSome) :
    tryDownload env ds (src :: rest) s
      = (⟨true, "Up-to-date", some src.url⟩,
         { s with headCalls := src.url :: s.headCalls }) := by
  have hatt : attemptSource env ds src s
      = (some ⟨true, "Up-to-date", some src.url⟩,
         { s with headCalls := src.url :: s.headCalls }) := by
    obtain ⟨ty, url⟩ := src
    have hj : ¬ (Source.type ⟨ty, url⟩ = SrcType.json) := by
      rcases hty with hty | hty <;> cases hty <;> simp
    have hjb : (Source.type ⟨ty, url⟩ == SrcType.json) = false := by
      rcases hty with hty | hty <;> cases hty <;> rfl
    unfold attemptSource
    rw [if_neg hj, if_neg hj, hh]
    dsimp only at hfp ⊢
    have hchg : changedTest ((some hr).bind HeadResp.etag)
        ((some hr).bind HeadResp.lastModified)
        ((some hr).bind HeadResp.contentLength)
        (List.lookup url s.manifest) = false := by
      rw [hfp]
      exact changedTest_unchanged_false _ _ _ fp hone he hl hc
    have hse : decide (400 ≤ hr.status) = false := by
      simp
      omega
    simp only [hchg, hjb, hse, Option.isNone_some, Bool.or_false, Bool.false_or,
      if_false, reduceIte, Bool.false_eq_true]
    rw [if_pos hex]
  exact tryDownload_cons_some env ds src rest s _ _ hatt

/-- Witness for C2's amended theorem: etag `"E"` stored and re-probed. -/
theorem C2_witness :
    tryDownload envEtagE dsK [srcCsvU] stOldFpE
      = (⟨true, "Up-to-date", some "u"⟩, { stOldFpE with headCalls := ["u"] }) :=
  C2_unchanged_fingerprint_up_to_date envEtagE dsK srcCsvU [] stOldFpE fpE
    ⟨200, some "E", none, none⟩ (Or.inl rfl) rfl (by decide) (by decide)
    (Or.inl (by decide)) (fun _ => rfl)
    (fun hx => by simp at hx) (fun hx => by simp at hx) (by decide)

/-! ## Claim C3 -/

/-- **C3** (confirmed): a JSON source never issues a probe (`headCalls`
unchanged) and always performs a full body retrieval (`retrieveCalls` grows
by its URL), whatever the state — in particular whatever fingerprint the
manifest stores for that URL — in both variants of the orchestrator. -/
theorem C3_json_no_probe_always_fetch (env : Env) (ds : Dataset) (src : Source) (s : St)
    (hty : src.type = SrcType.json) :
    ((attemptSource env ds src s).2.headCalls = s.headCalls
      ∧ (attemptSource env ds src s).2.retrieveCalls = src.url :: s.retrieveCalls)
    ∧ ((attemptSource2 env ds src s).2.headCalls = s.headCalls
      ∧ (attemptSource2 env ds src s).2.retrieveCalls = src.url :: s.retrieveCalls) := by
  obtain ⟨ty, url⟩ := src
  cases hty
  refine ⟨?_, ?_⟩
  · unfold attemptSource
    simp only [reduceIte, beq_self_eq_true, Bool.true_or, if_true]
    constructor
    · split
      · rfl
      · rename_i s1 hfs
        have hst := fetchStage_some_state _ _ _ _ _ hfs
        simp [hst.2.2.1]
    · split
      · rfl
      · rename_i s1 hfs
        have hst := fetchStage_some_state _ _ _ _ _ hfs
        simp [hst.2.2.2]
  · unfold attemptSource2
    constructor
    · split <;> first | rfl | (split <;> rfl)
    · split <;> first | rfl | (split <;> rfl)

/-- Witness for C3 at a JSON source whose probe would succeed: the probe is
still skipped and the body fetched. -/
theorem C3_witness :
    ((attemptSource envEmptyData dsKJson srcJsonU stEmpty).2.headCalls = []
      ∧ (attemptSource envEmptyData dsKJson srcJsonU stEmpty).2.retrieveCalls = ["u"])
    ∧ ((attemptSource2 envEmptyData dsKJson srcJsonU stEmpty).2.headCalls = []
      ∧ (attemptSource2 envEmptyData dsKJson srcJsonU stEmpty).2.retrieveCalls
          = ["u"]) :=
  C3_json_no_probe_always_fetch envEmptyData dsKJson srcJsonU stEmpty rfl

/-! ## Claim C7 -/

theorem pickLargestCsv_none_iff (files : List ZipEntry) :
    pickLargestCsv files = none
      ↔ files.filter (fun f => isCsvName f.name) = [] := by
  unfold pickLargestCsv
  dsimp only
  cases h : files.filter (fun f => isCsvName f.name) with
  | nil => simp
  | cons c t => simp

/-- A zip source whose retrieved archive extracts to no `.csv` entry throws
(`No CSV inside ZIP`) and yields to the next source, leaving the
out-directory and the manifest untouched. -/
theorem attemptSource_zip_no_csv (env : Env) (ds : Dataset) (url : String)
    (rest : List Source) (s : St) (body : String)
    (hret : env.retrieve url = some body)
    (hnone : (env.extract body).filter (fun f => isCsvName f.name) = [])
    (hlook : s.manifest.lookup url = none) :
    tryDownload env ds (⟨SrcType.zip, url⟩ :: rest) s
      = tryDownload env ds rest
          { s with headCalls := url :: s.headCalls,
                   retrieveCalls := url :: s.retrieveCalls } := by
  apply tryDownload_cons_none
  have hpick : pickLargestCsv (env.extract body) = none := by
    unfold pickLargestCsv
    dsimp only
    rw [hnone]
  unfold attemptSource fetchStage
  simp only [reduceIte, reduceCtorEq]
  rw [hlook]
  simp only [changedTest_none, Bool.or_true, if_true, hret, hpick]

/-- **C7** (confirmed): `pickLargestCsv` selects, among the entries whose
lowercased name ends in `.csv`, the first one (listing order) whose byte
size dominates all of them — i.e. the first entry attaining the maximal
size, so first-seen wins exact ties and non-CSV entries are ignored;
selection is empty exactly when no `.csv` entry exists, in which case a zip
source fails and the orchestrator falls back to the next source. -/
theorem C7_zip_selects_first_largest_csv :
    (∀ files, pickLargestCsv files = firstMaxCsv files)
    ∧ (∀ files, pickLargestCsv files = none
        ↔ files.filter (fun f => isCsvName f.name) = [])
    ∧ (∀ env ds url rest s body, env.retrieve url = some body →
        (env.extract body).filter (fun f => isCsvName f.name) = [] →
        s.manifest.lookup url = none →
        tryDownload env ds (⟨SrcType.zip, url⟩ :: rest) s
          = tryDownload env ds rest
              { s with headCalls := url :: s.headCalls,
                       retrieveCalls := url :: s.retrieveCalls }) :=
  ⟨pickLargestCsv_eq_firstMaxCsv, pickLargestCsv_none_iff,
   fun env ds url rest s body hret hnone hlook =>
     attemptSource_zip_no_csv env ds url rest s body hret hnone hlook⟩

/-- Witness for C7: a mixed archive (non-CSV entry of dominating size, a
size tie among `.csv` entries) and the no-CSV fallback scenario. -/
theorem C7_witness :
    pickLargestCsv
        [⟨"a.txt", 50, "t"⟩, ⟨"b.CSV", 3, "b"⟩, ⟨"c.csv", 9, "c"⟩, ⟨"d.csv", 9, "d"⟩]
      = firstMaxCsv
        [⟨"a.txt", 50, "t"⟩, ⟨"b.CSV", 3, "b"⟩, ⟨"c.csv", 9, "c"⟩, ⟨"d.csv", 9, "d"⟩]
    ∧ pickLargestCsv
        [⟨"a.txt", 50, "t"⟩, ⟨"b.CSV", 3, "b"⟩, ⟨"c.csv", 9, "c"⟩, ⟨"d.csv", 9, "d"⟩]
      = some ⟨"c.csv", 9, "c"⟩
    ∧ tryDownload envZipNoCsv dsKZip [srcZipU] stEmpty
        = tryDownload envZipNoCsv dsKZip []
            { stEmpty with headCalls := ["u"], retrieveCalls := ["u"] } :=
  ⟨C7_zip_selects_first_largest_csv.1 _, by decide,
   C7_zip_selects_first_largest_csv.2.2 envZipNoCsv dsKZip "u" [] stEmpty "Z"
     rfl (by decide) rfl⟩

/-! ## Claim C8 -/

/-- **C8** (confirmed): sources are attempted strictly in descriptor order —
a committed attempt short-circuits the remaining sources and returns its own
result and state; a failed attempt never aborts the dataset but hands an
out-directory/manifest-unchanged state to the next source; and when the
first source fails and a csv second source (with no stored fingerprint)
succeeds, the outcome reports the second source's URL and the canonical
file holds the second source's body.  The second variant short-circuits and
falls back identically. -/
theorem C8_fallback_order :
    (∀ env ds src rest s r s', attemptSource env ds src s = (some r, s') →
        tryDownload env ds (src :: rest) s = (r, s'))
    ∧ (∀ env ds src rest s s', attemptSource env ds src s = (none, s') →
        tryDownload env ds (src :: rest) s = tryDownload env ds rest s'
          ∧ s'.outFiles = s.outFiles ∧ s'.manifest = s.manifest
          ∧ s'.savedManifests = s.savedManifests)
    ∧ (∀ env ds src1 src2 s s1 body,
        attemptSource env ds src1 s = (none, s1) →
        src2.type = SrcType.csv →
        s.manifest.lookup src2.url = none →
        env.retrieve src2.url = some body →
        ∃ s2, tryDownload env ds [src1, src2] s
            = (⟨true, "Downloaded", some src2.url⟩, s2)
          ∧ s2.outFiles.lookup (ds.key ++ ".csv") = some body)
    ∧ (∀ env ds src rest s r s', attemptSource2 env ds src s = (some r, s') →
        tryDownload2 env ds (src :: rest) s = (r, s'))
    ∧ (∀ env ds src rest s s', attemptSource2 env ds src s = (none, s') →
        tryDownload2 env ds (src :: rest) s = tryDownload2 env ds rest s') := by
  refine ⟨?_, ?_, ?_, ?_, ?_⟩
  · intro env ds src rest s r s' h
    exact tryDownload_cons_some env ds src rest s r s' h
  · intro env ds src rest s s' h
    obtain ⟨h1, h2, h3⟩ := attemptSource_none_state env ds src s s' h
    exact ⟨tryDownload_cons_none env ds src rest s s' h, h1, h2, h3⟩
  · intro env ds src1 src2 s s1 body h1 hty2 hlook hret
    obtain ⟨_, hMan, _⟩ := attemptSource_none_state env ds src1 s s1 h1
    have hlook1 : s1.manifest.lookup src2.url = none := by
      rw [hMan]
      exact hlook
    obtain ⟨s2, hatt, hfiles, _, _⟩ :=
      attemptSource_csv_fresh env ds src2 s1 hty2 hlook1 body hret
    refine ⟨s2, ?_, ?_⟩
    · rw [tryDownload_cons_none env ds src1 [src2] s s1 h1]
      exact tryDownload_cons_some env ds src2 [] s1 _ _ hatt
    · rw [hfiles]
      exact alSet_lookup_self _ _ _
  · intro env ds src rest s r s' h
    exact tryDownload2_cons_some env ds src rest s r s' h
  · intro env ds src rest s s' h
    exact tryDownload2_cons_none env ds src rest s s' h

/-- Witness for C8: `u1` fails retrieval, `u2` serves `"DATA"`; the batch
commits from `u2` and the canonical file holds `u2`'s bytes. -/
theorem C8_witness :
    ∃ s2, tryDownload envTwoSources dsK2 [srcCsvU1, srcCsvU2] stEmpty
        = (⟨true, "Downloaded", some "u2"⟩, s2)
      ∧ s2.outFiles.lookup "k.csv" = some "DATA" :=
  C8_fallback_order.2.2.1 envTwoSources dsK2 srcCsvU1 srcCsvU2 stEmpty
    { stEmpty with headCalls := ["u1"], retrieveCalls := ["u1"] } "DATA"
    (by decide) rfl (by decide) (by decide)

/-! ## Claim C9 -/

/-- **C9 counterexample**: probe unchanged (stored etag `"E"` matches) but
the canonical file is missing, so the csv recovery path runs: a body is
retrieved (`retrieveCalls = [u]`) and the canonical file written
(`k.csv ↦ "NEW"`), yet nothing is persisted (`savedManifests = []`) and the
in-memory fingerprint is left with its old timestamp — the claimed
write-through of an updated fingerprint does not happen on this path. -/
theorem C9_counterexample :
    (tryDownload envEtagE dsK [srcCsvU] stNoFileFpE).1.note = "Downloaded (recovered)"
    ∧ (tryDownload envEtagE dsK [srcCsvU] stNoFileFpE).2.retrieveCalls = ["u"]
    ∧ (tryDownload envEtagE dsK [srcCsvU] stNoFileFpE).2.outFiles.lookup "k.csv"
        = some "NEW"
    ∧ (tryDownload envEtagE dsK [srcCsvU] stNoFileFpE).2.savedManifests = []
    ∧ (tryDownload envEtagE dsK [srcCsvU] stNoFileFpE).2.manifest
        = stNoFileFpE.manifest := by
  refine ⟨?_, ?_, ?_, ?_, ?_⟩ <;> decide

/-- **C9 amended**: a source attempt that commits through the fetch branch
(note `"Downloaded"` or `"ZIP extracted"`) leaves a fingerprint for its URL
(timestamped with the current clock and pointing at `<key>.csv`) in the
manifest and persists that manifest at once — the persisted head equals the
in-memory manifest — and the batch loop hands exactly that state to the next
dataset; but the csv recovery path (note `"Downloaded (recovered)"`)
rewrites the canonical file without updating or persisting the manifest. -/
theorem C9_write_through_except_recovery :
    (∀ env ds src s r s', attemptSource env ds src s = (some r, s') →
        (r.note = "Downloaded" ∨ r.note = "ZIP extracted") →
        (∃ fp, s'.manifest.lookup src.url = some fp
          ∧ fp.ts = env.now ∧ fp.savedAs = ds.key ++ ".csv")
        ∧ s'.savedManifests = s'.manifest :: s.savedManifests)
    ∧ (∀ env ds src s r s', attemptSource env ds src s = (some r, s') →
        r.note = "Downloaded (recovered)" →
        s'.manifest = s.manifest ∧ s'.savedManifests = s.savedManifests)
    ∧ (∀ env ds rest s, runBatch env (ds :: rest) s
        = ((ds.key, (tryDownload env ds ds.sources s).1)
            :: (runBatch env rest (tryDownload env ds ds.sources s).2).1,
           (runBatch env rest (tryDownload env ds ds.sources s).2).2)) := by
  refine ⟨?_, ?_, ?_⟩
  · intro env ds src s r s' h hnote
    by_cases hj : src.type = SrcType.json
    · unfold attemptSource at h
      simp only [hj, reduceIte, beq_self_eq_true, Bool.true_or, if_true] at h
      split at h
      · cases h
      · cases h
        rename_i s1 hfs
        have hsf := fetchStage_some_state _ _ _ _ _ hfs
        constructor
        · exact ⟨_, alSet_lookup_self _ _ _, rfl, rfl⟩
        · simp [hsf.2.1]
    · unfold attemptSource at h
      simp only [hj, reduceIte] at h
      split at h
      · split at h
        · cases h
        · cases h
          rename_i s1 hfs
          have hsf := fetchStage_some_state _ _ _ _ _ hfs
          constructor
          · exact ⟨_, alSet_lookup_self _ _ _, rfl, rfl⟩
          · simp [hsf.2.1]
      · split at h
        · cases h
          simp at hnote
        · split at h
          · split at h
            · cases h
            · cases h
              simp at hnote
          · cases h
  · intro env ds src s r s' h hnote
    by_cases hj : src.type = SrcType.json
    · unfold attemptSource at h
      simp only [hj, reduceIte, beq_self_eq_true, Bool.true_or, if_true] at h
      split at h
      · cases h
      · cases h
        simp at hnote
    · unfold attemptSource at h
      simp only [hj, reduceIte] at h
      split at h
      · split at h
        · cases h
        · cases h
          split at hnote <;> simp at hnote
      · split at h
        · cases h
          simp at hnote
        · split at h
          · split at h
            · cases h
            · cases h
              exact ⟨rfl, rfl⟩
          · cases h
  · intro env ds rest s
    rfl

/-- Witness for C9's amended theorem: a fresh csv download commits and
persists its fingerprint. -/
theorem C9_witness :
    (∃ fp, (attemptSource envEtagE dsK srcCsvU stEmpty).2.manifest.lookup "u"
        = some fp ∧ fp.ts = 7 ∧ fp.savedAs = "k.csv")
    ∧ (attemptSource envEtagE dsK srcCsvU stEmpty).2.savedManifests
        = (attemptSource envEtagE dsK srcCsvU stEmpty).2.manifest :: [] :=
  C9_write_through_except_recovery.1 envEtagE dsK srcCsvU stEmpty
    ⟨true, "Downloaded", some "u"⟩ (attemptSource envEtagE dsK srcCsvU stEmpty).2
    (by decide) (Or.inl rfl)

/-! ## Claim C10 -/

/-- **C10** (confirmed): a JSON source whose payload parses and yields an
empty record list normalizes to the empty CSV string — a zero-byte canonical
file with no header row — and the refresh nevertheless reports the source as
successfully downloaded, stores a fingerprint for its URL and persists the
manifest. -/
theorem C10_empty_json_records (env : Env) (ds : Dataset) (src : Source)
    (rest : List Source) (s : St) (body : String) (parsed : JVal)
    (hty : src.type = SrcType.json)
    (hret : env.retrieve src.url = some body)
    (hparse : env.parseJson body = some parsed)
    (hempty : extractData parsed = []) :
    ∃ s', tryDownload env ds (src :: rest) s
        = (⟨true, "Downloaded", some src.url⟩, s')
      ∧ s'.outFiles.lookup (ds.key ++ ".csv") = some ""
      ∧ (∃ fp, s'.manifest.lookup src.url = some fp)
      ∧ s'.savedManifests = s'.manifest :: s.savedManifests := by
  obtain ⟨ty, url⟩ := src
  cases hty
  have hz : (SrcType.json == SrcType.zip) = false := rfl
  have hatt : ∃ s2, attemptSource env ds ⟨SrcType.json, url⟩ s
      = (some ⟨true, "Downloaded", some url⟩, s2)
      ∧ s2.outFiles = alSet s.outFiles (ds.key ++ ".csv") ""
      ∧ (s2.manifest.lookup url).isSome
      ∧ s2.savedManifests = s2.manifest :: s.savedManifests := by
    unfold attemptSource fetchStage
    simp only [reduceIte, beq_self_eq_true, Bool.true_or, if_true, hret, hparse,
      hempty, hz]
    refine ⟨_, rfl, rfl, ?_, rfl⟩
    exact Option.isSome_iff_exists.mpr ⟨_, alSet_lookup_self _ _ _⟩
  obtain ⟨s2, ha, hout, hfp, hsm⟩ := hatt
  refine ⟨s2, tryDownload_cons_some _ _ _ _ _ _ _ ha, ?_, ?_, hsm⟩
  · rw [hout]
    exact alSet_lookup_self _ _ _
  · exact Option.isSome_iff_exists.mp hfp

/-- Witness for C10 at the payload `{"data": []}`. -/
theorem C10_witness :
    ∃ s', tryDownload envEmptyData dsKJson [srcJsonU] stEmpty
        = (⟨true, "Downloaded", some "u"⟩, s')
      ∧ s'.outFiles.lookup "k.csv" = some ""
      ∧ (∃ fp, s'.manifest.lookup "u" = some fp)
      ∧ s'.savedManifests = s'.manifest :: [] :=
  C10_empty_json_records envEmptyData dsKJson srcJsonU [] stEmpty "J"
    (.jobj [("data", .jarr [])]) rfl rfl rfl rfl

end Ditc
